import Mathlib

/-!
Shallow embedding of `CarlaEnv/wrappers.py` and proofs about it: the
signed angle helper `angle_diff`, the `CollisionSensor` history
machinery, the camera buffer decoding pipeline, and the actor lifecycle
bookkeeping shared by `CarlaActorBase` and the `World` registry.
-/

namespace Wrappers

/-! ### angle_diff (wrappers.py, lines 24-29) -/

/-- Model of numpy's `arctan2(y, x)`: the argument of the complex number
`x + y*i`, valued in `(-pi, pi]` (and `0` at the origin, matching
`np.arctan2(0.0, 0.0) = 0`). -/
noncomputable def arctan2 (y x : ℝ) : ℝ := Complex.arg ⟨x, y⟩

/-- Translation of `angle_diff(v0, v1)`: difference of the two `arctan2`
values, then the two wrap branches `angle > pi` and `angle <= -pi`. -/
noncomputable def angle_diff (v0 v1 : ℝ × ℝ) : ℝ :=
  let angle := arctan2 v1.2 v1.1 - arctan2 v0.2 v0.1
  if angle > Real.pi then angle - 2 * Real.pi
  else if angle ≤ -Real.pi then angle + 2 * Real.pi
  else angle

theorem arctan2_zero_one : arctan2 0 1 = 0 := by
  have h : (⟨1, 0⟩ : ℂ) = 1 := by
    apply Complex.ext <;> simp
  rw [arctan2, h, Complex.arg_one]

theorem arctan2_one_zero : arctan2 1 0 = Real.pi / 2 := by
  have h : (⟨0, 1⟩ : ℂ) = Complex.I := by
    apply Complex.ext <;> simp
  rw [arctan2, h, Complex.arg_I]

theorem arctan2_zero_neg_one : arctan2 0 (-1) = Real.pi := by
  have h : (⟨-1, 0⟩ : ℂ) = -1 := by
    apply Complex.ext <;> simp
  rw [arctan2, h, Complex.arg_neg_one]

/-- C6: `angle_diff` returns `pi/2` on `v0 = (1,0)`, `v1 = (0,1)`, and
returns `+pi` (not `-pi`) on `v0 = (1,0)`, `v1 = (-1,0)`: at the boundary
of exactly `pi` the result stays positive instead of wrapping to `-pi`. -/
theorem angle_diff_boundary :
    angle_diff (1, 0) (0, 1) = Real.pi / 2 ∧
    angle_diff (1, 0) (-1, 0) = Real.pi := by
  have hpi := Real.pi_pos
  constructor
  · show (if arctan2 1 0 - arctan2 0 1 > Real.pi then _ else _) = _
    rw [arctan2_one_zero, arctan2_zero_one, sub_zero]
    rw [if_neg (by linarith), if_neg (by linarith)]
  · show (if arctan2 0 (-1) - arctan2 0 1 > Real.pi then _ else _) = _
    rw [arctan2_zero_neg_one, arctan2_zero_one, sub_zero]
    rw [if_neg (by linarith), if_neg (by linarith)]

/-! ### CollisionSensor (wrappers.py, lines 71-110) -/

/-- Payload of a simulator collision event: the frame number and the
3-axis normal impulse vector. -/
structure CollisionEvent where
  frame_number : ℕ
  impulse_x : ℝ
  impulse_y : ℝ
  impulse_z : ℝ

/-- State of a `CollisionSensor` wrapper: the collision history (pairs of
frame number and impulse intensity, oldest first) and whether a callable
`on_collision_fn` user callback was supplied. -/
structure CollisionState where
  history : List (ℕ × ℝ)
  on_collision_fn : Bool

/-- Impulse intensity computed by `on_collision`:
`math.sqrt(impulse.x**2 + impulse.y**2 + impulse.z**2)`. -/
noncomputable def intensity (e : CollisionEvent) : ℝ :=
  Real.sqrt (e.impulse_x ^ 2 + e.impulse_y ^ 2 + e.impulse_z ^ 2)

/-- The impulse vector of an event as a point of real Euclidean 3-space
(used to state that `intensity` is the Euclidean norm). -/
noncomputable def impulseVec (e : CollisionEvent) : EuclideanSpace ℝ (Fin 3) :=
  (WithLp.equiv 2 (Fin 3 → ℝ)).symm ![e.impulse_x, e.impulse_y, e.impulse_z]

/-- History update performed by `on_collision`:
`self.history.append((event.frame_number, intensity))` followed by
`if len(self.history) > 4000: self.history.pop(0)`. -/
noncomputable def pushHist (h : List (ℕ × ℝ)) (e : CollisionEvent) : List (ℕ × ℝ) :=
  if 4000 < (h ++ [(e.frame_number, intensity e)]).length
  then (h ++ [(e.frame_number, intensity e)]).tail
  else h ++ [(e.frame_number, intensity e)]

/-- Record of one invocation of the user-supplied `on_collision_fn`: the
sensor history visible at the moment of the call, and the raw event the
callback receives. -/
structure UserCall where
  history_at_call : List (ℕ × ℝ)
  event : CollisionEvent

/-- Translation of the static callback `CollisionSensor.on_collision`. The
first argument models dereferencing the weak reference (`none` when the
wrapper has been garbage collected, in which case the callback returns at
once). It returns the wrapper state after the call and the list of
user-callback invocations made during the call; the history recorded in a
`UserCall` is the history already updated by this delivery, capturing that
the user callback runs only after the history update. -/
noncomputable def on_collision :
    Option CollisionState → CollisionEvent → Option CollisionState × List UserCall
  | none, _ => (none, [])
  | some s, e =>
    (some ⟨pushHist s.history e, s.on_collision_fn⟩,
     if s.on_collision_fn then [⟨pushHist s.history e, e⟩] else [])

/-- One `history[frame] += intensity` update on a
`collections.defaultdict(int)`, modelled as an insertion-ordered
association list: add to the entry carrying the key, or append a fresh
entry (started from the default `0`) at the end. -/
def dictIncr : List (ℕ × ℝ) → ℕ → ℝ → List (ℕ × ℝ)
  | [], k, v => [(k, 0 + v)]
  | p :: rest, k, v =>
    if p.1 = k then (p.1, p.2 + v) :: rest else p :: dictIncr rest k v

/-- Translation of `CollisionSensor.get_collision_history`: fold the
stored history into a per-frame mapping, summing intensities. -/
def get_collision_history (hist : List (ℕ × ℝ)) : List (ℕ × ℝ) :=
  hist.foldl (fun d p => dictIncr d p.1 p.2) []

/-- Reading the mapping at a key, with the `defaultdict` default `0` for
an absent key. -/
def lookupD : List (ℕ × ℝ) → ℕ → ℝ
  | [], _ => 0
  | p :: rest, k => if p.1 = k then p.2 else lookupD rest k

/-- Keys present in the mapping. -/
def keysOf (d : List (ℕ × ℝ)) : List ℕ := d.map Prod.fst

theorem lookupD_dictIncr_self (d : List (ℕ × ℝ)) (k : ℕ) (v : ℝ) :
    lookupD (dictIncr d k v) k = lookupD d k + v := by
  induction d with
  | nil => simp [dictIncr, lookupD]
  | cons p rest ih =>
    by_cases h : p.1 = k
    · simp [dictIncr, lookupD, h]
    · simp [dictIncr, lookupD, h, ih]

theorem lookupD_dictIncr_ne (d : List (ℕ × ℝ)) (k k' : ℕ) (v : ℝ)
    (hne : k' ≠ k) : lookupD (dictIncr d k v) k' = lookupD d k' := by
  have hkk : ¬ (k = k') := fun h => hne h.symm
  induction d with
  | nil => simp [dictIncr, lookupD, hkk]
  | cons p rest ih =>
    by_cases h : p.1 = k
    · simp [dictIncr, lookupD, h, hne, hkk]
    · by_cases h2 : p.1 = k'
      · simp [dictIncr, lookupD, h, h2, hne, hkk]
      · simp [dictIncr, lookupD, h, h2, ih]

theorem mem_keysOf_dictIncr (d : List (ℕ × ℝ)) (k k' : ℕ) (v : ℝ) :
    k' ∈ keysOf (dictIncr d k v) ↔ k' = k ∨ k' ∈ keysOf d := by
  induction d with
  | nil => simp [dictIncr, keysOf]
  | cons p rest ih =>
    by_cases h : p.1 = k
    · have hstep : dictIncr (p :: rest) k v = (p.1, p.2 + v) :: rest := by
        simp only [dictIncr, if_pos h]
      rw [hstep]
      simp only [keysOf, List.map_cons, List.mem_cons, h]
      tauto
    · have hstep : dictIncr (p :: rest) k v = p :: dictIncr rest k v := by
        simp only [dictIncr, if_neg h]
      rw [hstep]
      simp only [keysOf, List.map_cons, List.mem_cons] at ih ⊢
      rw [ih]
      tauto

theorem lookupD_foldl_dictIncr (hist : List (ℕ × ℝ)) (d : List (ℕ × ℝ))
    (f : ℕ) :
    lookupD (hist.foldl (fun d p => dictIncr d p.1 p.2) d) f
      = lookupD d f + ((hist.filter (fun p => p.1 = f)).map Prod.snd).sum := by
  induction hist generalizing d with
  | nil => simp
  | cons p rest ih =>
    rw [List.foldl_cons, ih, List.filter_cons]
    by_cases h : p.1 = f
    · have hd : decide (p.1 = f) = true := by simp [h]
      rw [if_pos hd, List.map_cons, List.sum_cons, h, lookupD_dictIncr_self]
      ring
    · have hd : ¬ (decide (p.1 = f) = true) := by simp [h]
      rw [if_neg hd, lookupD_dictIncr_ne d p.1 f p.2 (fun h2 => h h2.symm)]

theorem mem_keysOf_foldl_dictIncr (hist : List (ℕ × ℝ)) (d : List (ℕ × ℝ))
    (f : ℕ) :
    f ∈ keysOf (hist.foldl (fun d p => dictIncr d p.1 p.2) d)
      ↔ f ∈ keysOf d ∨ ∃ p ∈ hist, p.1 = f := by
  induction hist generalizing d with
  | nil => simp
  | cons p rest ih =>
    rw [List.foldl_cons, ih, mem_keysOf_dictIncr]
    constructor
    · rintro ((h | h) | ⟨q, hq, hqf⟩)
      · exact Or.inr ⟨p, List.mem_cons_self p rest, h.symm⟩
      · exact Or.inl h
      · exact Or.inr ⟨q, List.mem_cons_of_mem p hq, hqf⟩
    · rintro (h | ⟨q, hq, hqf⟩)
      · exact Or.inl (Or.inr h)
      · rcases List.mem_cons.mp hq with h2 | h2
        · exact Or.inl (Or.inl (h2 ▸ hqf).symm)
        · exact Or.inr ⟨q, h2, hqf⟩

/-- C1: `get_collision_history()` maps each frame to the sum of the
intensities of all records currently stored for that frame, and a frame
appears as a key exactly when some stored record carries it (absent
frames read as the `defaultdict` default `0`). -/
theorem get_collision_history_correct (hist : List (ℕ × ℝ)) (f : ℕ) :
    lookupD (get_collision_history hist) f
      = ((hist.filter (fun p => p.1 = f)).map Prod.snd).sum
    ∧ (f ∈ keysOf (get_collision_history hist) ↔ ∃ p ∈ hist, p.1 = f) := by
  constructor
  · rw [get_collision_history, lookupD_foldl_dictIncr]
    simp [lookupD]
  · rw [get_collision_history, mem_keysOf_foldl_dictIncr]
    simp [keysOf]

/-- Sensor state as set up in `CollisionSensor.__init__`: empty history. -/
def initCollisionState (fn : Bool) : CollisionState := ⟨[], fn⟩

/-- State of the sensor after a sequence of collision-callback deliveries
to a live sensor, starting from a freshly constructed one. -/
noncomputable def runOnCollision (fn : Bool) (events : List CollisionEvent) :
    Option CollisionState :=
  events.foldl (fun s e => (on_collision s e).1) (some (initCollisionState fn))

theorem pushHist_length_le (h : List (ℕ × ℝ)) (e : CollisionEvent)
    (hle : h.length ≤ 4000) : (pushHist h e).length ≤ 4000 := by
  rw [pushHist]
  by_cases hc : 4000 < (h ++ [(e.frame_number, intensity e)]).length
  · rw [if_pos hc, List.length_tail, List.length_append]
    simp
    omega
  · rw [if_neg hc]
    omega

theorem runOnCollision_bound_aux (events : List CollisionEvent)
    (s : CollisionState) (hle : s.history.length ≤ 4000) :
    ∃ s', events.foldl (fun t e => (on_collision t e).1) (some s) = some s'
      ∧ s'.history.length ≤ 4000 := by
  induction events generalizing s with
  | nil => exact ⟨s, rfl, hle⟩
  | cons e rest ih =>
    rw [List.foldl_cons]
    exact ih ⟨pushHist s.history e, s.on_collision_fn⟩
      (pushHist_length_le s.history e hle)

/-- C2: after any sequence of collision-callback deliveries starting from
a fresh sensor, the history length is at most 4000; and a delivery that
would exceed the bound (history already at 4000 entries) evicts the
oldest, first-appended entry (the head of the list) while appending the
new record at the end. -/
theorem collision_history_bounded (fn : Bool) (events : List CollisionEvent) :
    (∃ s, runOnCollision fn events = some s ∧ s.history.length ≤ 4000)
    ∧ (∀ (s : CollisionState) (e : CollisionEvent), s.history.length = 4000 →
        (on_collision (some s) e).1
          = some ⟨s.history.tail ++ [(e.frame_number, intensity e)],
                  s.on_collision_fn⟩) := by
  constructor
  · exact runOnCollision_bound_aux events (initCollisionState fn) (by simp [initCollisionState])
  · intro s e hlen
    have hne : s.history ≠ [] := by
      intro h0
      rw [h0] at hlen
      simp at hlen
    have hc : 4000 < (s.history ++ [(e.frame_number, intensity e)]).length := by
      rw [List.length_append, hlen]
      simp
    rw [on_collision, pushHist, if_pos hc]
    rw [List.tail_append_of_ne_nil]
    exact hne

/-- Concrete 4000-entry history used to exercise the eviction branch. -/
def witHist : List (ℕ × ℝ) := List.replicate 4000 (0, 0)

theorem collision_history_bounded_witness :
    (on_collision (some ⟨witHist, true⟩) ⟨5, 1, 2, 2⟩).1
      = some ⟨witHist.tail ++ [(5, intensity ⟨5, 1, 2, 2⟩)], true⟩ :=
  (collision_history_bounded true []).2 ⟨witHist, true⟩ ⟨5, 1, 2, 2⟩
    (by show witHist.length = 4000
        rw [witHist, List.length_replicate])

theorem intensity_eq_norm (e : CollisionEvent) :
    intensity e = ‖impulseVec e‖ := by
  rw [intensity, impulseVec, EuclideanSpace.norm_eq]
  simp [Fin.sum_univ_three, Real.norm_eq_abs, sq_abs]

/-- C7: a delivery to a live sensor whose user callback is callable
computes the intensity as the Euclidean norm of the 3-axis normal impulse
vector, appends `(frame_number, intensity)` to the history with the
4000-entry truncation applied, and invokes the user callback exactly once
with the raw event, the history already updated at the moment of the
call. -/
theorem on_collision_behavior (s : CollisionState) (e : CollisionEvent)
    (hfn : s.on_collision_fn = true) :
    on_collision (some s) e
      = (some ⟨pushHist s.history e, s.on_collision_fn⟩,
         [⟨pushHist s.history e, e⟩])
    ∧ pushHist s.history e
        = (if 4000 < (s.history ++ [(e.frame_number, intensity e)]).length
           then (s.history ++ [(e.frame_number, intensity e)]).tail
           else s.history ++ [(e.frame_number, intensity e)])
    ∧ intensity e = ‖impulseVec e‖ := by
  refine ⟨?_, rfl, intensity_eq_norm e⟩
  rw [on_collision, if_pos hfn]

theorem on_collision_behavior_witness :
    intensity ⟨1, 3, 4, 0⟩ = ‖impulseVec ⟨1, 3, 4, 0⟩‖ :=
  (on_collision_behavior ⟨[], true⟩ ⟨1, 3, 4, 0⟩ rfl).2.2

/-! ### LaneInvasionSensor (wrappers.py, lines 117-139) -/

/-- Opaque lane-invasion event payload, forwarded unchanged. -/
structure InvasionEvent where
  payload : ℕ

/-- State of a `LaneInvasionSensor` wrapper: whether a callable
`on_invasion_fn` user callback was supplied. -/
structure InvasionState where
  on_invasion_fn : Bool

/-- Translation of the static callback `LaneInvasionSensor.on_invasion`:
dereference the weak reference, return at once when the wrapper is gone,
otherwise forward the raw event to the user callback when callable. -/
def on_invasion :
    Option InvasionState → InvasionEvent → Option InvasionState × List InvasionEvent
  | none, _ => (none, [])
  | some s, e => (some s, if s.on_invasion_fn then [e] else [])

/-! ### Camera (wrappers.py, lines 145-178) -/

/-- A raw camera frame delivered by the simulator: dimensions plus the
flat BGRA byte buffer `raw_data`. -/
structure CameraImage where
  height : ℕ
  width : ℕ
  raw_data : List ℕ

/-- State of a `Camera` wrapper: whether a callable `on_recv_image` user
callback was supplied. -/
structure CameraState where
  on_recv_image : Bool

/-- Translation of
`np.reshape(np.frombuffer(image.raw_data, "uint8"), (height, width, 4))`:
the flat buffer read as an `height x width x 4` nested list, row-major. -/
def reshapeHW4 (hgt wid : ℕ) (raw : List ℕ) : List (List (List ℕ)) :=
  (List.range hgt).map fun i =>
    (List.range wid).map fun j =>
      (List.range 4).map fun c => raw.getD ((i * wid + j) * 4 + c) 0

/-- Translation of `array[:, :, :3]`: keep the first 3 channels of every
pixel, dropping alpha. -/
def dropAlpha (img : List (List (List ℕ))) : List (List (List ℕ)) :=
  img.map fun row => row.map fun px => px.take 3

/-- Translation of `array[:, :, ::-1]`: reverse the channel order of every
pixel. -/
def reverseChannels (img : List (List (List ℕ))) : List (List (List ℕ)) :=
  img.map fun row => row.map fun px => px.reverse

/-- Translation of the static callback `Camera.process_camera_input`:
dereference the weak reference, return at once when the wrapper is gone,
otherwise (when `on_recv_image` is callable) decode the raw buffer and
forward the decoded array to the user callback. -/
def process_camera_input :
    Option CameraState → CameraImage → Option CameraState × List (List (List (List ℕ)))
  | none, _ => (none, [])
  | some s, img =>
    if s.on_recv_image then
      (some s, [reverseChannels (dropAlpha (reshapeHW4 img.height img.width img.raw_data))])
    else (some s, [])

/-- C8: when the weak reference dereferences to nothing (the wrapper was
garbage collected), each of the three sensor callbacks returns
immediately: no state, no user-callback invocation, no error. -/
theorem dead_weakref_callbacks_noop (e : CollisionEvent) (ev : InvasionEvent)
    (img : CameraImage) :
    on_collision none e = (none, [])
    ∧ on_invasion none ev = (none, [])
    ∧ process_camera_input none img = (none, []) :=
  ⟨rfl, rfl, rfl⟩

theorem getD_range_map {α : Type} (n i : ℕ) (f : ℕ → α) (d : α)
    (h : i < n) : ((List.range n).map f).getD i d = f i := by
  have hlt : i < ((List.range n).map f).length := by simpa
  rw [List.getD_eq_getElem _ _ hlt, List.getElem_map, List.getElem_range]

theorem decoded_pixel (hgt wid : ℕ) (raw : List ℕ) (i j : ℕ)
    (hi : i < hgt) (hj : j < wid) :
    ((reverseChannels (dropAlpha (reshapeHW4 hgt wid raw))).getD i [] |>.getD j [])
      = [raw.getD ((i * wid + j) * 4 + 2) 0,
         raw.getD ((i * wid + j) * 4 + 1) 0,
         raw.getD ((i * wid + j) * 4 + 0) 0] := by
  have h1 : reverseChannels (dropAlpha (reshapeHW4 hgt wid raw))
      = (List.range hgt).map fun i =>
          (List.range wid).map fun j =>
            (((List.range 4).map fun c =>
                raw.getD ((i * wid + j) * 4 + c) 0).take 3).reverse := by
    rw [reverseChannels, dropAlpha, reshapeHW4]
    simp [List.map_map, Function.comp]
  rw [h1, getD_range_map _ _ _ _ hi, getD_range_map _ _ _ _ hj]
  rfl

/-- C5: on any raw buffer for positive dimensions `hgt`, `wid` with
`hgt * wid * 4` bytes, the camera callback forwards to the user callback a
single decoded `hgt x wid x 3` buffer whose channel `k` at every pixel
equals input channel `2 - k` of that pixel: channel order reversed over
the 3 leading channels, alpha dropped. -/
theorem camera_channel_reversal (hgt wid : ℕ) (raw : List ℕ)
    (_hh : 0 < hgt) (_hw : 0 < wid) (_hlen : raw.length = hgt * wid * 4) :
    ∃ out, process_camera_input (some ⟨true⟩) ⟨hgt, wid, raw⟩
        = (some ⟨true⟩, [out])
      ∧ out.length = hgt
      ∧ (∀ i, i < hgt → (out.getD i []).length = wid)
      ∧ (∀ i j, i < hgt → j < wid → ((out.getD i []).getD j []).length = 3)
      ∧ (∀ i j k, i < hgt → j < wid → k < 3 →
          ((out.getD i []).getD j []).getD k 0
            = raw.getD ((i * wid + j) * 4 + (2 - k)) 0) := by
  refine ⟨reverseChannels (dropAlpha (reshapeHW4 hgt wid raw)), rfl, ?_, ?_, ?_, ?_⟩
  · rw [reverseChannels, dropAlpha, reshapeHW4]
    simp
  · intro i hi
    rw [reverseChannels, dropAlpha, reshapeHW4, List.map_map, List.map_map]
    rw [getD_range_map _ _ _ _ hi]
    simp
  · intro i j hi hj
    rw [decoded_pixel hgt wid raw i j hi hj]
    rfl
  · intro i j k hi hj hk
    rw [decoded_pixel hgt wid raw i j hi hj]
    interval_cases k
    · rfl
    · rfl
    · rfl

theorem camera_channel_reversal_witness :
    ∃ out, process_camera_input (some ⟨true⟩) ⟨1, 1, [10, 20, 30, 40]⟩
        = (some ⟨true⟩, [out])
      ∧ out.length = 1
      ∧ (∀ i, i < 1 → (out.getD i []).length = 1)
      ∧ (∀ i j, i < 1 → j < 1 → ((out.getD i []).getD j []).length = 3)
      ∧ (∀ i j k, i < 1 → j < 1 → k < 3 →
          ((out.getD i []).getD j []).getD k 0
            = [10, 20, 30, 40].getD ((i * 1 + j) * 4 + (2 - k)) 0) :=
  camera_channel_reversal 1 1 [10, 20, 30, 40] (by decide) (by decide) (by decide)

/-! ### CarlaActorBase and the World registry
(wrappers.py, lines 41-65 and 218-245)

Handles are identified by natural-number ids. A single `WorldState` holds
the registry's `actor_list` (handle ids in spawn order), each handle's
`destroyed` attribute, whether each handle's underlying simulator actor is
still alive, and — as ghost bookkeeping for stating the lifecycle
invariant — the ids of all handles constructed so far. The only
operations that touch the `destroyed` flags or the registry list are
`CarlaActorBase.__init__` and `CarlaActorBase.destroy` (`tick` and
`get_carla_actor` read or forward only). -/

structure WorldState where
  actor_list : List ℕ
  destroyedFlag : ℕ → Bool
  simAlive : ℕ → Bool
  spawned : List ℕ

/-- Registry state right after `World.__init__`: empty actor list, no
handles constructed yet. -/
def initWorld : WorldState := ⟨[], fun _ => false, fun _ => false, []⟩

/-- Translation of `CarlaActorBase.__init__` for a freshly spawned
simulator actor: append the handle to the registry's list and set its
`destroyed` flag to `False`. -/
def constructHandle (s : WorldState) (i : ℕ) : WorldState :=
  ⟨s.actor_list ++ [i],
   fun j => if j = i then false else s.destroyedFlag j,
   fun j => if j = i then true else s.simAlive j,
   s.spawned ++ [i]⟩

/-- Translation of `CarlaActorBase.destroy`: when the flag is already set,
raise `Exception("Actor already destroyed.")` (returned as `some` message,
paired with the untouched state); otherwise destroy the simulator actor,
remove the handle from the registry's list (first occurrence, as Python's
`list.remove`) and set the flag. -/
def destroy (s : WorldState) (i : ℕ) : WorldState × Option String :=
  if s.destroyedFlag i then (s, some "Actor already destroyed.")
  else
    (⟨s.actor_list.erase i,
      fun j => if j = i then true else s.destroyedFlag j,
      fun j => if j = i then false else s.simAlive j,
      s.spawned⟩, none)

/-- Translation of the loop body of `World.destroy`: iterate a snapshot of
the actor list, calling each handle's `destroy`; a raised exception aborts
the loop and propagates. Also returns the ids on which `destroy` was
invoked. -/
def destroyAll : WorldState → List ℕ → WorldState × List ℕ × Option String
  | s, [] => (s, [], none)
  | s, i :: rest =>
    match destroy s i with
    | (s1, none) =>
      let r := destroyAll s1 rest
      (r.1, i :: r.2.1, r.2.2)
    | (s1, some msg) => (s1, [i], some msg)

/-- Translation of `World.destroy`: run the loop over the snapshot
`list(self.actor_list)`. -/
def World.destroy (s : WorldState) : WorldState × List ℕ × Option String :=
  destroyAll s s.actor_list

/-- C3: a freshly constructed handle's `destroyed` flag is `False`;
`destroy` succeeds exactly when the flag is `False`; a successful
`destroy` sets the flag, and a second `destroy` on the same handle then
fails with the already-destroyed error, leaving the state untouched. -/
theorem destroy_lifecycle (s : WorldState) (i : ℕ) :
    (∀ (t : WorldState) (j : ℕ), (constructHandle t j).destroyedFlag j = false)
    ∧ ((destroy s i).2 = none ↔ s.destroyedFlag i = false)
    ∧ ((destroy s i).2 = none →
        (destroy s i).1.destroyedFlag i = true
        ∧ destroy (destroy s i).1 i
            = ((destroy s i).1, some "Actor already destroyed."))
    ∧ (s.destroyedFlag i = true → destroy s i = (s, some "Actor already destroyed.")) := by
  refine ⟨fun t j => by simp [constructHandle], ?_, ?_, ?_⟩
  · by_cases h : s.destroyedFlag i
    · simp [destroy, h]
    · simp [destroy, h]
  · intro hok
    by_cases h : s.destroyedFlag i
    · rw [destroy, if_pos h] at hok
      simp at hok
    · rw [destroy, if_neg h]
      constructor
      · simp
      · rw [destroy]
        simp
  · intro h
    rw [destroy, if_pos h]

theorem destroy_lifecycle_witness :
    (destroy (constructHandle initWorld 0) 0).1.destroyedFlag 0 = true
    ∧ destroy (destroy (constructHandle initWorld 0) 0).1 0
        = ((destroy (constructHandle initWorld 0) 0).1,
           some "Actor already destroyed.") :=
  (destroy_lifecycle (constructHandle initWorld 0) 0).2.2.1 (by decide)

/-- C9: when `destroy` raises the already-destroyed error, nothing is
mutated: the returned state is the input state itself, so the handle's
flag, the simulator actor's liveness and the registry's list are exactly
as before the call (the check precedes every mutation in the method
body). -/
theorem destroy_error_no_mutation (s : WorldState) (i : ℕ)
    (h : s.destroyedFlag i = true) :
    destroy s i = (s, some "Actor already destroyed.")
    ∧ (destroy s i).1.destroyedFlag i = s.destroyedFlag i
    ∧ (destroy s i).1.simAlive i = s.simAlive i
    ∧ (destroy s i).1.actor_list = s.actor_list := by
  rw [destroy, if_pos h]
  exact ⟨rfl, rfl, rfl, rfl⟩

theorem destroy_error_no_mutation_witness :
    destroy (destroy (constructHandle initWorld 0) 0).1 0
        = ((destroy (constructHandle initWorld 0) 0).1,
           some "Actor already destroyed.")
    ∧ (destroy (destroy (constructHandle initWorld 0) 0).1 0).1.destroyedFlag 0
        = (destroy (constructHandle initWorld 0) 0).1.destroyedFlag 0
    ∧ (destroy (destroy (constructHandle initWorld 0) 0).1 0).1.simAlive 0
        = (destroy (constructHandle initWorld 0) 0).1.simAlive 0
    ∧ (destroy (destroy (constructHandle initWorld 0) 0).1 0).1.actor_list
        = (destroy (constructHandle initWorld 0) 0).1.actor_list :=
  destroy_error_no_mutation (destroy (constructHandle initWorld 0) 0).1 0 (by decide)

theorem destroyAll_spec (l : List ℕ) (s : WorldState)
    (hal : s.actor_list = l) (hnd : l.Nodup)
    (hlive : ∀ i ∈ l, s.destroyedFlag i = false) :
    ∃ s', destroyAll s l = (s', l, none) ∧ s'.actor_list = [] := by
  induction l generalizing s with
  | nil => exact ⟨s, rfl, hal⟩
  | cons i rest ih =>
    have hflag : s.destroyedFlag i = false := hlive i (List.mem_cons_self i rest)
    have hflagfalse : ¬ (s.destroyedFlag i = true) := by simp [hflag]
    have hni : i ∉ rest := (List.nodup_cons.mp hnd).1
    have hstep : destroy s i
        = (⟨rest,
            fun j => if j = i then true else s.destroyedFlag j,
            fun j => if j = i then false else s.simAlive j,
            s.spawned⟩, none) := by
      rw [destroy, if_neg hflagfalse, hal, List.erase_cons_head]
    obtain ⟨s', hres, hempty⟩ :=
      ih (⟨rest,
            fun j => if j = i then true else s.destroyedFlag j,
            fun j => if j = i then false else s.simAlive j,
            s.spawned⟩) rfl (List.nodup_cons.mp hnd).2
        (fun j hj => by
          show (if j = i then true else s.destroyedFlag j) = false
          rw [if_neg (fun hji : j = i => hni (hji ▸ hj))]
          exact hlive j (List.mem_cons_of_mem i hj))
    refine ⟨s', ?_, hempty⟩
    simp only [destroyAll, hstep, hres]

/-- C4: when the registry's actor list holds distinct, live handles,
`World.destroy()` calls `destroy` exactly once on each handle that was in
the list at call time (the invocation trace is exactly the snapshot of
the list), no call raises, and afterwards the registry's actor list is
empty. -/
theorem world_destroy_correct (s : WorldState)
    (hnd : s.actor_list.Nodup)
    (hlive : ∀ i ∈ s.actor_list, s.destroyedFlag i = false) :
    ∃ s', World.destroy s = (s', s.actor_list, none) ∧ s'.actor_list = [] :=
  destroyAll_spec s.actor_list s rfl hnd hlive

theorem world_destroy_correct_witness :
    ∃ s', World.destroy (constructHandle (constructHandle initWorld 0) 1)
        = (s', (constructHandle (constructHandle initWorld 0) 1).actor_list, none)
      ∧ s'.actor_list = [] :=
  world_destroy_correct (constructHandle (constructHandle initWorld 0) 1)
    (by decide) (by decide)

/-- Lifecycle invariant: the registry list holds no duplicates, holds only
constructed handles, and a constructed handle is in the list exactly when
its `destroyed` flag is `False`. -/
def WorldInv (s : WorldState) : Prop :=
  s.actor_list.Nodup
  ∧ (∀ i ∈ s.actor_list, i ∈ s.spawned)
  ∧ (∀ i ∈ s.spawned, (i ∈ s.actor_list ↔ s.destroyedFlag i = false))

/-- C10: the membership-iff-not-destroyed invariant holds initially and is
preserved by the only two operations that touch the flag or the list:
construction (of a fresh handle) appends the handle with its flag cleared,
a successful `destroy` removes the handle and sets its flag, and a failed
`destroy` changes nothing. -/
theorem registry_invariant :
    WorldInv initWorld
    ∧ (∀ (s : WorldState) (i : ℕ), WorldInv s → i ∉ s.spawned →
        WorldInv (constructHandle s i)
        ∧ (constructHandle s i).destroyedFlag i = false
        ∧ (constructHandle s i).actor_list = s.actor_list ++ [i])
    ∧ (∀ (s : WorldState) (i : ℕ), WorldInv s → (destroy s i).2 = none →
        WorldInv (destroy s i).1
        ∧ (destroy s i).1.destroyedFlag i = true
        ∧ (destroy s i).1.actor_list = s.actor_list.erase i)
    ∧ (∀ (s : WorldState) (i : ℕ),
        (destroy s i).2 = some "Actor already destroyed." →
        (destroy s i).1 = s) := by
  refine ⟨?_, ?_, ?_, ?_⟩
  · exact ⟨List.nodup_nil,
      fun i hi => absurd hi (List.not_mem_nil i),
      fun i hi => absurd hi (List.not_mem_nil i)⟩
  · intro s i hInv hfresh
    obtain ⟨hnd, hsub, hiff⟩ := hInv
    have hmem : i ∉ s.actor_list := fun hmem => hfresh (hsub i hmem)
    refine ⟨⟨?_, ?_, ?_⟩, by simp [constructHandle], rfl⟩
    · show (s.actor_list ++ [i]).Nodup
      rw [List.nodup_append]
      refine ⟨hnd, List.nodup_singleton i, ?_⟩
      intro a ha hai
      rw [List.mem_singleton] at hai
      exact hmem (hai ▸ ha)
    · intro j hj
      show j ∈ s.spawned ++ [i]
      have hj2 : j ∈ s.actor_list ++ [i] := hj
      rw [List.mem_append] at hj2 ⊢
      rcases hj2 with h2 | h2
      · exact Or.inl (hsub j h2)
      · exact Or.inr h2
    · intro j hj
      have hj2 : j ∈ s.spawned ++ [i] := hj
      by_cases hji : j = i
      · subst hji
        show j ∈ s.actor_list ++ [j] ↔ (if j = j then false else s.destroyedFlag j) = false
        simp
      · have hj3 : j ∈ s.spawned := by
          rcases List.mem_append.mp hj2 with h2 | h2
          · exact h2
          · exact absurd (List.mem_singleton.mp h2) hji
        show j ∈ s.actor_list ++ [i] ↔ (if j = i then false else s.destroyedFlag j) = false
        rw [if_neg hji, List.mem_append]
        constructor
        · rintro (h2 | h2)
          · exact (hiff j hj3).mp h2
          · exact absurd (List.mem_singleton.mp h2) hji
        · intro h2
          exact Or.inl ((hiff j hj3).mpr h2)
  · intro s i hInv hok
    obtain ⟨hnd, hsub, hiff⟩ := hInv
    by_cases hflag : s.destroyedFlag i = true
    · rw [destroy, if_pos hflag] at hok
      exact absurd hok (by simp)
    · have heq : destroy s i
          = (⟨s.actor_list.erase i,
              fun j => if j = i then true else s.destroyedFlag j,
              fun j => if j = i then false else s.simAlive j,
              s.spawned⟩, none) := by
        rw [destroy, if_neg hflag]
      rw [heq]
      refine ⟨⟨?_, ?_, ?_⟩, by simp, rfl⟩
      · exact hnd.erase i
      · intro j hj
        exact hsub j (List.mem_of_mem_erase hj)
      · intro j hj
        by_cases hji : j = i
        · subst hji
          show j ∈ s.actor_list.erase j ↔ (if j = j then true else s.destroyedFlag j) = false
          rw [if_pos rfl]
          constructor
          · intro h2
            exact absurd rfl ((List.Nodup.mem_erase_iff hnd).mp h2).1
          · intro h2
            simp at h2
        · show j ∈ s.actor_list.erase i ↔ (if j = i then true else s.destroyedFlag j) = false
          rw [if_neg hji, List.Nodup.mem_erase_iff hnd]
          constructor
          · rintro ⟨h2, h3⟩
            exact (hiff j hj).mp h3
          · intro h2
            exact ⟨hji, (hiff j hj).mpr h2⟩
  · intro s i herr
    by_cases hflag : s.destroyedFlag i = true
    · rw [destroy, if_pos hflag]
    · rw [destroy, if_neg hflag] at herr
      exact absurd herr (by simp)

theorem registry_invariant_witness :
    WorldInv (constructHandle initWorld 0)
    ∧ (constructHandle initWorld 0).destroyedFlag 0 = false
    ∧ (constructHandle initWorld 0).actor_list = initWorld.actor_list ++ [0] :=
  registry_invariant.2.1 initWorld 0
    (by simp [WorldInv, initWorld]) (by simp [initWorld])

end Wrappers
